import Mathlib

/-!
# Verification of the jiri reconciliation engine specification

This file embeds, in Lean 4, the parts of the jiri multi-repository
workspace orchestrator that the verified claims are about:

* the project-state inspection code (`setProjectState` / `GetProjectStates`
  from `project/state.go`), translated directly from the Go source;
* the manifest import loader with stack-based cycle detection;
* the local scanner (FAST / FULL scan modes);
* the manifest serialization with default-value elision;
* the planner / executor (create, update, move, delete, null operations,
  ignore filter, dirty-delete policy);
* the per-project update procedure (fetch, target determination, detached
  reset, rebase-on-tracking with conflict abort, sentinel files).

The loader, scanner, serializer, planner and update procedure are not part
of the provided source tree (only their tests are); those definitions are
modelled from the specification, as marked in their doc comments.
-/

/-! ## Project state inspection (from `project/state.go`) -/

/-- A named git reference together with the commit it points at
(Go struct `ReferenceState` in `project/state.go`). -/
structure ReferenceState where
  name : String
  revision : String
deriving DecidableEq, Repr

/-- A local branch: its own reference plus the optional remote reference it
tracks (Go struct `BranchState`). -/
structure BranchState where
  ref : ReferenceState
  tracking : Option ReferenceState
deriving DecidableEq, Repr

/-- The state of one project checkout as reported by `GetProjectStates`
(Go struct `ProjectState`; the embedded `Project` value is elided since the
claims do not mention it). -/
structure ProjState where
  branches : List BranchState
  currentBranch : BranchState
  hasUncommitted : Bool
  hasUntracked : Bool
deriving DecidableEq, Repr

/-- One entry of the answer of `git.GetAllBranchesInfo()`: name, revision,
optional tracking reference, and whether this branch is checked out. -/
structure GitBranchInfo where
  name : String
  revision : String
  tracking : Option ReferenceState
  isHead : Bool
deriving DecidableEq, Repr

/-- The answers the git port gives for one repository: the branch list,
the current commit, and the two dirtiness checks.  `setProjectState`
consults exactly these. -/
structure GitRepo where
  branches : List GitBranchInfo
  currentRevision : String
  hasUncommittedChanges : Bool
  hasUntrackedFiles : Bool
deriving DecidableEq, Repr

/-- The `BranchState` built for one branch inside the loop of
`setProjectState`. -/
def branchStateOf (b : GitBranchInfo) : BranchState :=
  { ref := { name := b.name, revision := b.revision }, tracking := b.tracking }

/-- The loop of `setProjectState`: walk the branches in order, appending a
`BranchState` for each, and remember the last branch carrying the head
flag as the current branch. -/
def scanBranches : List GitBranchInfo → List BranchState → BranchState →
    List BranchState × BranchState
  | [], bs, cur => (bs, cur)
  | b :: rest, bs, cur =>
      scanBranches rest (bs ++ [branchStateOf b])
        (if b.isHead then branchStateOf b else cur)

/-- Translation of `setProjectState` from `project/state.go`: the current
branch starts out with an empty name; the branch loop may replace it; if no
branch carried the head flag the current revision is read from the
repository; the dirtiness flags are only consulted when `checkDirty` is
set, and keep their zero value `false` otherwise. -/
def setProjectState (repo : GitRepo) (checkDirty : Bool) : ProjState :=
  let init : BranchState := { ref := { name := "", revision := "" }, tracking := none }
  let scanned := scanBranches repo.branches [] init
  let cur := scanned.2
  let cur := if cur.ref.name = "" then
      { cur with ref := { cur.ref with revision := repo.currentRevision } }
    else cur
  { branches := scanned.1
    currentBranch := cur
    hasUncommitted := if checkDirty then repo.hasUncommittedChanges else false
    hasUntracked := if checkDirty then repo.hasUntrackedFiles else false }

/-- Translation of `GetProjectStates` from `project/state.go`: build a
state for every project of the map (the per-project goroutines coordinate
only through the error channel, so the result is the pointwise one). -/
def getProjectStates (projects : List (String × GitRepo)) (checkDirty : Bool) :
    List (String × ProjState) :=
  projects.map (fun kr => (kr.1, setProjectState kr.2 checkDirty))

/-- Concrete repository for the C10 witness: one non-head branch, a known
current commit, and a dirty working tree. -/
def witnessRepo : GitRepo :=
  { branches := [{ name := "feature", revision := "c1",
                   tracking := some { name := "origin/feature", revision := "c2" },
                   isHead := false }]
    currentRevision := "c3"
    hasUncommittedChanges := true
    hasUntrackedFiles := true }

/-! ## Manifest loader (modelled from the spec)

Modelled from the spec: the manifest loader (`§4.1`) is not part of the
provided source tree; only its tests (`TestFileImportCycle`,
`TestRemoteImportCycle`, `TestFileAndRemoteImportCycle`) are.  The model
follows the spec's algorithm: a stack of manifests currently being
resolved, keyed by (kind, identity); entering a manifest pushes its key;
a push that would duplicate a key already on the stack fails with
`ImportCycle`; imports are processed in declaration order; projects are
merged last-wins. -/

/-- The (kind, identity) key of a manifest being resolved: the absolute
file path for local imports, the (remote, manifest-path, branch) tuple for
remote imports. -/
inductive ImportKey where
  | localFile (path : String)
  | remoteImport (remote manifestPath branch : String)
deriving DecidableEq, Repr

/-- A project declaration carried by a manifest, reduced to the fields the
loader claims need: its ProjectKey and its path. -/
structure ProjectDecl where
  key : String
  path : String
deriving DecidableEq, Repr

/-- A manifest as the loader sees it: its imports, in declaration order,
and its own project declarations. -/
structure LoaderManifest where
  imports : List ImportKey
  projects : List ProjectDecl
deriving DecidableEq, Repr

/-- The import graph: which manifest each import key denotes.  Fetching or
reading the manifest for a key is modelled as a lookup; a key absent from
the graph is a manifest that cannot be fetched. -/
abbrev ImportGraph := List (ImportKey × LoaderManifest)

def lookupManifest : ImportGraph → ImportKey → Option LoaderManifest
  | [], _ => none
  | (k', m) :: rest, k => if k = k' then some m else lookupManifest rest k

/-- Load-stage errors (spec `§7`): `importCycle` carries the diagnostic
message; `importFetch` a manifest that could not be materialized;
`fuelExhausted` is the recursion bound of the model, shown unreachable
for adequate fuel. -/
inductive LoadError where
  | importCycle (msg : String)
  | importFetch (key : ImportKey)
  | fuelExhausted
deriving DecidableEq, Repr

/-- The cycle diagnostic used by the loader, as asserted by the tests:
local-file cycles and remote-import cycles carry different suffixes, both
starting with the phrase "import cycle detected". -/
def cycleMessage : ImportKey → String
  | .localFile _ => "import cycle detected in local manifest files"
  | .remoteImport _ _ _ => "import cycle detected in remote manifest imports"

/-- Last-wins insertion of a project declaration into the accumulated
consolidated project list. -/
def upsertProject (acc : List ProjectDecl) (p : ProjectDecl) : List ProjectDecl :=
  if acc.any (fun q => q.key = p.key) then
    acc.map (fun q => if q.key = p.key then p else q)
  else acc ++ [p]

def mergeProjects (acc : List ProjectDecl) (ps : List ProjectDecl) : List ProjectDecl :=
  ps.foldl upsertProject acc

mutual

/-- Resolve one manifest: fail if its key is already on the stack (an
import-cycle), fetch the manifest, resolve its imports depth-first in
declaration order, then merge its own projects last-wins. -/
def resolveImport (g : ImportGraph) (fuel : Nat) (stack : List ImportKey)
    (acc : List ProjectDecl) (k : ImportKey) :
    Except LoadError (List ProjectDecl) :=
  match fuel with
  | 0 => .error .fuelExhausted
  | fuel' + 1 =>
    if k ∈ stack then .error (.importCycle (cycleMessage k))
    else match lookupManifest g k with
      | none => .error (.importFetch k)
      | some m =>
        match resolveImportList g fuel' (k :: stack) acc m.imports with
        | .error e => .error e
        | .ok acc' => .ok (mergeProjects acc' m.projects)
termination_by (fuel, 0)

/-- Resolve a list of imports in declaration order, threading the
consolidated accumulator; the first error aborts. -/
def resolveImportList (g : ImportGraph) (fuel : Nat) (stack : List ImportKey)
    (acc : List ProjectDecl) (ks : List ImportKey) :
    Except LoadError (List ProjectDecl) :=
  match ks with
  | [] => .ok acc
  | i :: is =>
    match resolveImport g fuel stack acc i with
    | .error e => .error e
    | .ok acc' => resolveImportList g fuel stack acc' is
termination_by (fuel, ks.length + 1)

end

def graphKeys (g : ImportGraph) : List ImportKey := g.map Prod.fst

/-- The load stage: resolve the root manifest with an empty stack.  Fuel
`g.length + 1` is enough because the stack holds pairwise distinct keys of
the graph. -/
def loadManifest (g : ImportGraph) (root : ImportKey) :
    Except LoadError (List ProjectDecl) :=
  resolveImport g (g.length + 1) [] [] root

/-- The import graph's edge relation: manifest `k` declares import `k'`. -/
def importEdge (g : ImportGraph) (k k' : ImportKey) : Prop :=
  ∃ m, lookupManifest g k = some m ∧ k' ∈ m.imports

/-- A manifest reachable from the root through imports. -/
def ReachableFrom (g : ImportGraph) (root k : ImportKey) : Prop :=
  Relation.ReflTransGen (importEdge g) root k

/-- Every manifest reachable from the root can be fetched. -/
def ClosedGraph (g : ImportGraph) (root : ImportKey) : Prop :=
  ∀ k, ReachableFrom g root k → (lookupManifest g k).isSome

/-- The import graph contains a cycle: some manifest reachable from the
root imports itself transitively. -/
def HasImportCycle (g : ImportGraph) (root : ImportKey) : Prop :=
  ∃ k, ReachableFrom g root k ∧ Relation.TransGen (importEdge g) k k

/-- The string `phrase` occurs verbatim inside `s`. -/
def containsPhrase (s phrase : String) : Prop :=
  ∃ a b, s = a ++ (phrase ++ b)

/-- Mixed file/remote import cycle mirroring `TestFileAndRemoteImportCycle`:
`.jiri_manifest -> remote1+A -> remote2+B -> C -> remote1+D -> A`. -/
def keyRootEx : ImportKey := .localFile "/root/.jiri_manifest"

def keyR1A : ImportKey := .remoteImport "remote1" "A" "master"

def keyR2B : ImportKey := .remoteImport "remote2" "B" "master"

def keyLC : ImportKey := .localFile "/root/.jiri/import/remote2/C"

def keyR1D : ImportKey := .remoteImport "remote1" "D" "master"

def keyLA : ImportKey := .localFile "/root/.jiri/import/remote1/A"

def cycleGraphEx : ImportGraph :=
  [ (keyRootEx, { imports := [keyR1A], projects := [] }),
    (keyR1A, { imports := [keyR2B], projects := [] }),
    (keyR2B, { imports := [keyLC], projects := [] }),
    (keyLC, { imports := [keyR1D], projects := [] }),
    (keyR1D, { imports := [keyLA], projects := [] }),
    (keyLA, { imports := [keyR2B], projects := [] }) ]

/-! ## Local scanner (modelled from the spec)

Modelled from the spec: `LocalProjects` and its scan modes (`§4.2`) are not
part of the provided source tree; only `TestLocalProjects` is. -/

/-- A project materialized on disk, as the scanner reports it: the metadata
record found in the project directory. -/
structure ScanProject where
  name : String
  path : String
deriving DecidableEq, Repr

inductive ScanMode where
  | fastScan
  | fullScan
deriving DecidableEq, Repr

/-- A snapshot candidate still exists on disk when some on-disk project
occupies its path. -/
def existsOnDisk (disk : List ScanProject) (c : ScanProject) : Bool :=
  disk.any (fun d => d.path = c.path)

/-- Modelled from the spec: `LocalProjects`.  FULL walks the workspace and
returns every project on disk.  FAST reads the latest-snapshot pointer if
present, takes its projects as candidates, validates each still exists on
disk, and upgrades transparently to FULL if any candidate is missing. -/
def localProjects (disk : List ScanProject)
    (latestSnapshot : Option (List ScanProject)) : ScanMode → List ScanProject
  | .fullScan => disk
  | .fastScan =>
      match latestSnapshot with
      | none => disk
      | some cands => if cands.all (existsOnDisk disk) then cands else disk

/-- The three projects of `TestLocalProjects`. -/
def scanP0 : ScanProject := { name := "project-0", path := "/root/project-0" }

def scanP1 : ScanProject := { name := "project-1", path := "/root/project-1" }

def scanP2 : ScanProject := { name := "project-2", path := "/root/project-2" }

/-! ## Manifest serialization (modelled from the spec)

Modelled from the spec: `Manifest.ToBytes` / `ManifestFromBytes` and
`Project.ToFile` / `ProjectFromFile` (`§6`) are not part of the provided
source tree; only `TestManifestToFromBytes` and `TestProjectToFromFile`
are.  The textual form is modelled as the list of XML elements with their
attribute lists; default values (remote-branch "master", revision "HEAD")
are elided on write and re-supplied on read, and empty attributes are
omitted. -/

/-- One serialized XML element: its tag and its attribute list. -/
structure XmlElem where
  tag : String
  attrs : List (String × String)
deriving DecidableEq, Repr

/-- Attribute lookup; a missing attribute reads as the empty string. -/
def lookupAttr : List (String × String) → String → String
  | [], _ => ""
  | (k, v) :: rest, key => if k = key then v else lookupAttr rest key

/-- Emit an attribute only when its value is non-empty (omitempty). -/
def attrIf (key value : String) : List (String × String) :=
  if value = "" then [] else [(key, value)]

/-- Elide the default remote branch on write. -/
def unfillBranch (b : String) : String := if b = "master" then "" else b

/-- Elide the default revision on write. -/
def unfillRevision (r : String) : String := if r = "HEAD" then "" else r

/-- Re-supply the default remote branch on read. -/
def fillBranch (b : String) : String := if b = "" then "master" else b

/-- Re-supply the default revision on read. -/
def fillRevision (r : String) : String := if r = "" then "HEAD" else r

/-- A manifest project element with its documented attributes. -/
structure MProject where
  name : String
  path : String
  remote : String
  remoteBranch : String
  revision : String
  gerritHost : String
  gitHooks : String
deriving DecidableEq, Repr

/-- A remote import element with its documented attributes. -/
structure MImport where
  manifest : String
  name : String
  remote : String
  remoteBranch : String
deriving DecidableEq, Repr

/-- A local import element. -/
structure MLocalImport where
  file : String
deriving DecidableEq, Repr

/-- A hook element. -/
structure MHook where
  name : String
  action : String
  projectName : String
deriving DecidableEq, Repr

/-- The manifest: its four ordered collections. -/
structure Manifest where
  imports : List MImport
  localImports : List MLocalImport
  projects : List MProject
  hooks : List MHook
deriving DecidableEq, Repr

def projectToElem (p : MProject) : XmlElem :=
  { tag := "project"
    attrs := attrIf "name" p.name ++ (attrIf "path" p.path ++
      (attrIf "remote" p.remote ++
        (attrIf "remotebranch" (unfillBranch p.remoteBranch) ++
          (attrIf "revision" (unfillRevision p.revision) ++
            (attrIf "gerrithost" p.gerritHost ++ attrIf "githooks" p.gitHooks))))) }

def importToElem (i : MImport) : XmlElem :=
  { tag := "import"
    attrs := attrIf "manifest" i.manifest ++ (attrIf "name" i.name ++
      (attrIf "remote" i.remote ++
        attrIf "remotebranch" (unfillBranch i.remoteBranch))) }

def localImportToElem (l : MLocalImport) : XmlElem :=
  { tag := "localimport", attrs := attrIf "file" l.file }

def hookToElem (h : MHook) : XmlElem :=
  { tag := "hook"
    attrs := attrIf "name" h.name ++
      (attrIf "action" h.action ++ attrIf "project" h.projectName) }

/-- Serialize a manifest: remote imports, local imports, projects, hooks,
in order, each collection in declaration order. -/
def manifestToElems (m : Manifest) : List XmlElem :=
  m.imports.map importToElem ++ m.localImports.map localImportToElem ++
    m.projects.map projectToElem ++ m.hooks.map hookToElem

def projectOfAttrs (a : List (String × String)) : MProject :=
  { name := lookupAttr a "name"
    path := lookupAttr a "path"
    remote := lookupAttr a "remote"
    remoteBranch := fillBranch (lookupAttr a "remotebranch")
    revision := fillRevision (lookupAttr a "revision")
    gerritHost := lookupAttr a "gerrithost"
    gitHooks := lookupAttr a "githooks" }

def importOfAttrs (a : List (String × String)) : MImport :=
  { manifest := lookupAttr a "manifest"
    name := lookupAttr a "name"
    remote := lookupAttr a "remote"
    remoteBranch := fillBranch (lookupAttr a "remotebranch") }

def localImportOfAttrs (a : List (String × String)) : MLocalImport :=
  { file := lookupAttr a "file" }

def hookOfAttrs (a : List (String × String)) : MHook :=
  { name := lookupAttr a "name"
    action := lookupAttr a "action"
    projectName := lookupAttr a "project" }

/-- Parse one element into the manifest under construction. -/
def addElem (m : Manifest) (e : XmlElem) : Manifest :=
  if e.tag = "import" then { m with imports := m.imports ++ [importOfAttrs e.attrs] }
  else if e.tag = "localimport" then
    { m with localImports := m.localImports ++ [localImportOfAttrs e.attrs] }
  else if e.tag = "project" then
    { m with projects := m.projects ++ [projectOfAttrs e.attrs] }
  else if e.tag = "hook" then { m with hooks := m.hooks ++ [hookOfAttrs e.attrs] }
  else m

def emptyManifest : Manifest :=
  { imports := [], localImports := [], projects := [], hooks := [] }

/-- Parse a serialized manifest. -/
def manifestOfElems (es : List XmlElem) : Manifest :=
  es.foldl addElem emptyManifest

/-- The manifest of the second `TestManifestToFromBytes` case. -/
def manifestEx : Manifest :=
  { imports :=
      [ { manifest := "manifest1", name := "remoteimport1", remote := "remote1",
          remoteBranch := "master" },
        { manifest := "manifest2", name := "remoteimport2", remote := "remote2",
          remoteBranch := "branch2" } ]
    localImports := [{ file := "fileimport" }]
    projects :=
      [ { name := "project1", path := "path1", remote := "remote1",
          remoteBranch := "master", revision := "HEAD",
          gerritHost := "https://test-review.googlesource.com",
          gitHooks := "path/to/githooks" },
        { name := "project2", path := "path2", remote := "remote2",
          remoteBranch := "branch2", revision := "rev2",
          gerritHost := "", gitHooks := "" } ]
    hooks := [{ name := "testhook", action := "action.sh", projectName := "project1" }] }

/-- The second project of `TestProjectToFromFile`. -/
def projectEx : MProject :=
  { name := "project2", path := "path2", remote := "remote2",
    remoteBranch := "branch2", revision := "rev2",
    gerritHost := "", gitHooks := "git-hooks" }

/-! ## Planner and executor (modelled from the spec)

Modelled from the spec: the planner and executor (`§4.4`, `§4.5`) are not
part of the provided source tree; only their tests
(`TestProjectUpdateWhenIgnore`, `TestIgnoredProjectsNotMoved`,
`TestIgnoredProjectsNotDeleted`, `testUpdateUniverseDeletedProject`) are.
Desired projects from the loader are joined with local projects by
ProjectKey; each local project gets one operation; a project marked
`ignore` produces Null regardless of the diff; a Delete whose target
subtree contains uncommitted or untracked changes is downgraded to Null. -/

/-- A path under the workspace root, as its list of directory components. -/
abbrev ProjPath := List String

/-- Path order `pathLe anc desc`: `anc` equals `desc` or is an ancestor directory of
it (component-wise). -/
def pathLe : ProjPath → ProjPath → Bool
  | [], _ => true
  | _ :: _, [] => false
  | a :: as, b :: bs => a = b && pathLe as bs

/-- A project on disk as the planner sees it: its ProjectKey, path,
working-tree contents, the `ignore` flag of its local config, and whether
its own tree holds uncommitted or untracked files. -/
structure LocalProj where
  key : String
  path : ProjPath
  contents : String
  ignore : Bool
  dirty : Bool
deriving DecidableEq, Repr

/-- A desired project from the consolidated manifest. -/
structure DesiredProj where
  key : String
  path : ProjPath
  contents : String
deriving DecidableEq, Repr

def findDesired : List DesiredProj → String → Option DesiredProj
  | [], _ => none
  | d :: rest, k => if d.key = k then some d else findDesired rest k

/-- Some project located at or under `path` has uncommitted or untracked
files (the dirtiness of a directory includes its nested projects). -/
def subtreeDirty (locals : List LocalProj) (path : ProjPath) : Bool :=
  locals.any (fun q => pathLe path q.path && q.dirty)

/-- The closed set of operation kinds (spec `§4.4`). -/
inductive Op where
  | create
  | update
  | move
  | delete
  | null
deriving DecidableEq, Repr

/-- The operation planned for one local project: Null when ignored;
Update or Move when the key is also desired (by path agreement); when the
key is no longer desired, Delete under gc — downgraded to Null when the
target's subtree is dirty — and Null otherwise. -/
def planOp (desired : List DesiredProj) (locals : List LocalProj) (gc : Bool)
    (l : LocalProj) : Op :=
  if l.ignore then .null
  else match findDesired desired l.key with
    | some d => if d.path = l.path then .update else .move
    | none =>
        if gc then (if subtreeDirty locals l.path then .null else .delete)
        else .null

/-- Execute one local project's operation: Null keeps it untouched,
Delete removes it, Update/Move reconcile it to the desired path and
contents. -/
def applyOp (desired : List DesiredProj) (locals : List LocalProj) (gc : Bool)
    (l : LocalProj) : Option LocalProj :=
  match planOp desired locals gc l with
  | .null => some l
  | .delete => none
  | _ =>
      match findDesired desired l.key with
      | some d => some { l with path := d.path, contents := d.contents }
      | none => some l

/-- Execute the whole plan: every surviving local project, plus a Create
for every desired key with no local counterpart. -/
def executePlan (desired : List DesiredProj) (locals : List LocalProj)
    (gc : Bool) : List LocalProj :=
  locals.filterMap (applyOp desired locals gc) ++
    (desired.filter (fun d => !(locals.any (fun l => l.key = d.key)))).map
      (fun d => { key := d.key, path := d.path, contents := d.contents,
                  ignore := false, dirty := false })

/-- The 7-project universe of `setupUniverse`, after the manifest dropped
projects 1–5 and project 4 acquired an uncommitted file
(`testUpdateUniverseDeletedProject` with `testDirtyProjectDelete`). -/
def lp0 : LocalProj :=
  { key := "project-0", path := ["path-0"], contents := "initial readme",
    ignore := false, dirty := false }

def lp1 : LocalProj :=
  { key := "project-1", path := ["path-1"], contents := "initial readme",
    ignore := false, dirty := false }

def lp2 : LocalProj :=
  { key := "project-2", path := ["path-2"], contents := "initial readme",
    ignore := false, dirty := false }

def lp3 : LocalProj :=
  { key := "project-3", path := ["path-2", "path-3"],
    contents := "initial readme", ignore := false, dirty := false }

def lp4 : LocalProj :=
  { key := "project-4", path := ["path-2", "path-3", "path-4"],
    contents := "initial readme", ignore := false, dirty := true }

def lp5 : LocalProj :=
  { key := "project-5", path := ["path-2", "path-5"],
    contents := "initial readme", ignore := false, dirty := false }

def lp6 : LocalProj :=
  { key := "project-6", path := ["path-0", "path-6"],
    contents := "initial readme", ignore := false, dirty := false }

def localsEx : List LocalProj := [lp0, lp1, lp2, lp3, lp4, lp5, lp6]

def desiredEx : List DesiredProj :=
  [ { key := "project-0", path := ["path-0"], contents := "initial readme" },
    { key := "project-6", path := ["path-0", "path-6"],
      contents := "initial readme" } ]

/-- An ignored local project for the C3 witness
(`TestIgnoredProjectsNotDeleted`): dropped from the manifest, gc on. -/
def lpIgnored : LocalProj :=
  { key := "project-1", path := ["path-1"], contents := "initial readme",
    ignore := true, dirty := false }

/-! ## Per-project update procedure (modelled from the spec)

Modelled from the spec: `UpdateUniverse`'s per-project update procedure
(`§4.5` steps 4–8) is not part of the provided source tree; only its tests
(`TestUpdateUniverseWithRevision`, `TestUpdateUniverseWithUncommitted`,
`TestUpdateWhenConflictMerge`, `checkJiriRevFiles`) are. -/

/-- The remote repository: each branch's tip commit. -/
structure RemoteRepo where
  branchTips : List (String × String)
deriving DecidableEq, Repr

def lookupStr : List (String × String) → String → Option String
  | [], _ => none
  | (k, v) :: rest, key => if k = key then some v else lookupStr rest key

def setStr : List (String × String) → String → String → List (String × String)
  | [], key, v => [(key, v)]
  | (k, w) :: rest, key, v =>
      if k = key then (k, v) :: rest else (k, w) :: setStr rest key v

/-- A manifest project as the update procedure needs it: an empty remote
branch means the default "master"; an empty revision means "track the
remote branch tip". -/
structure UProject where
  name : String
  remote : String
  remoteBranch : String
  revision : String
deriving DecidableEq, Repr

def remoteBranchOf (p : UProject) : String :=
  if p.remoteBranch = "" then "master" else p.remoteBranch

/-- The reference string the manifest pins the project to, written into
JIRI_HEAD: the literal revision when pinned, the remote-tracking branch
ref otherwise. -/
def targetRef (p : UProject) : String :=
  if p.revision = "" then "origin/" ++ remoteBranchOf p else p.revision

/-- One local project checkout. `untracked` holds the uncommitted or
untracked files (name and bytes); `jiriHead` and `jiriLastBase` are the
two sentinel files in the VCS metadata directory. -/
structure LocalRepo where
  onBranch : Option String
  branches : List (String × String)
  tracking : List (String × String)
  headCommit : String
  remoteRefs : List (String × String)
  untracked : List (String × String)
  jiriHead : String
  jiriLastBase : String
deriving DecidableEq, Repr

/-- Resolve a reference in a checkout: remote-tracking refs through the
fetched refs; anything else is a literal commit hash. -/
def resolveRef (repo : LocalRepo) (r : String) : String :=
  match lookupStr repo.remoteRefs r with
  | some c => c
  | none => r

/-- Fetch: bring the remote-tracking refs up to the remote's branch tips. -/
def fetchRemote (repo : LocalRepo) (remote : RemoteRepo) : LocalRepo :=
  { repo with
    remoteRefs := remote.branchTips.map (fun bc => ("origin/" ++ bc.1, bc.2)) }

/-- Non-fatal per-project error tags. -/
inductive UpdateTag where
  | rebaseConflict
deriving DecidableEq, Repr

/-- Modelled from the spec (`§4.5` steps 4–8): fetch; determine the target
commit (the pinned revision, else the remote-branch tip); on a detached
HEAD reset hard to the target, preserving uncommitted and untracked files;
on a branch whose tracking target advanced, rebase the branch onto it —
aborting on conflict, leaving the branch where it was, and tagging the
project with the non-fatal RebaseConflict; finally write the two
sentinels: JIRI_HEAD gets the target reference, JIRI_LAST_BASE the commit
the working tree was actually left at.  Whether rebasing commit `c` onto
commit `t` conflicts is supplied by the `conflicts` oracle. -/
def updateProject (p : UProject) (remote : RemoteRepo)
    (conflicts : String → String → Bool) (repo : LocalRepo) :
    LocalRepo × Option UpdateTag :=
  let repo' := fetchRemote repo remote
  let tgt := resolveRef repo' (targetRef p)
  match repo'.onBranch with
  | none =>
      ({ repo' with headCommit := tgt,
                    jiriHead := targetRef p, jiriLastBase := tgt }, none)
  | some b =>
      let cur := (lookupStr repo'.branches b).getD repo'.headCommit
      let trackTgt :=
        match lookupStr repo'.tracking b with
        | some rb => resolveRef repo' ("origin/" ++ rb)
        | none => cur
      if trackTgt = cur then
        ({ repo' with jiriHead := targetRef p, jiriLastBase := cur }, none)
      else if conflicts cur trackTgt then
        ({ repo' with jiriHead := targetRef p, jiriLastBase := cur },
         some .rebaseConflict)
      else
        ({ repo' with headCommit := trackTgt,
                      branches := setStr repo'.branches b trackTgt,
                      jiriHead := targetRef p, jiriLastBase := trackTgt }, none)

/-- One workspace entry: the manifest project, its remote, and its local
checkout. -/
structure WorkEntry where
  proj : UProject
  remote : RemoteRepo
  repo : LocalRepo
deriving DecidableEq, Repr

structure RunResult where
  entries : List (UProject × LocalRepo × Option UpdateTag)
  success : Bool
deriving DecidableEq, Repr

/-- Modelled from the spec: one engine run updates every workspace entry;
a rebase conflict is a non-fatal per-project tag, so the run still
succeeds (fatal error sources — VCS subprocess failures, hooks — are
outside this model). -/
def runUpdate (ws : List WorkEntry) (conflicts : String → String → Bool) :
    RunResult :=
  { entries := ws.map (fun e =>
      let rt := updateProject e.proj e.remote conflicts e.repo
      (e.proj, rt.1, rt.2))
    success := true }

/-- The `TestUpdateWhenConflictMerge` scenario: project 1 tracks the
default master branch (tip `c0`); the local checkout sits on branch
non-master at the cherry-picked commit `c2`, whose remote tracking branch
advanced to `c3`; rebasing `c2` onto `c3` conflicts. -/
def p1Ex : UProject :=
  { name := "project-1", remote := "remote-1", remoteBranch := "", revision := "" }

def remoteEx : RemoteRepo :=
  { branchTips := [("master", "c0"), ("non-master", "c3")] }

def repoEx : LocalRepo :=
  { onBranch := some "non-master"
    branches := [("non-master", "c2")]
    tracking := [("non-master", "non-master")]
    headCommit := "c2"
    remoteRefs := [("origin/master", "c0"), ("origin/non-master", "c1")]
    untracked := []
    jiriHead := ""
    jiriLastBase := "" }

def conflictsEx : String → String → Bool :=
  fun c t => c == "c2" && t == "c3"

def conflictEntryEx : WorkEntry :=
  { proj := p1Ex, remote := remoteEx, repo := repoEx }

/-- The `TestUpdateUniverseWithRevision` scenario: project 1 is pinned to
revision `r1` while its remote master advanced to `r2`; project 0 is
unpinned with master tip `r3`.  Both checkouts are detached, project 1
carrying an uncommitted file. -/
def pinnedProjEx : UProject :=
  { name := "project-1", remote := "remote-1", remoteBranch := "",
    revision := "r1" }

def pinnedRemoteEx : RemoteRepo := { branchTips := [("master", "r2")] }

def pinnedRepoEx : LocalRepo :=
  { onBranch := none
    branches := []
    tracking := []
    headCommit := "r1"
    remoteRefs := [("origin/master", "r1")]
    untracked := [("uncommitted_file", "uncommitted work")]
    jiriHead := ""
    jiriLastBase := "" }

def trackedProjEx : UProject :=
  { name := "project-0", remote := "remote-0", remoteBranch := "",
    revision := "" }

def trackedRemoteEx : RemoteRepo := { branchTips := [("master", "r3")] }

def trackedRepoEx : LocalRepo :=
  { onBranch := none
    branches := []
    tracking := []
    headCommit := "r0"
    remoteRefs := [("origin/master", "r0")]
    untracked := []
    jiriHead := ""
    jiriLastBase := "" }

def pinnedEntryEx : WorkEntry :=
  { proj := pinnedProjEx, remote := pinnedRemoteEx, repo := pinnedRepoEx }

def trackedEntryEx : WorkEntry :=
  { proj := trackedProjEx, remote := trackedRemoteEx, repo := trackedRepoEx }

/-! ## Theorems about project state inspection -/

theorem scanBranches_snd_of_no_head (l : List GitBranchInfo)
    (bs : List BranchState) (cur : BranchState)
    (h : ∀ b ∈ l, b.isHead = false) : (scanBranches l bs cur).2 = cur := by
  induction l generalizing bs cur with
  | nil => rfl
  | cons b rest ih =>
      have hb : b.isHead = false := h b (List.mem_cons_self _ _)
      simp only [scanBranches, hb, if_neg]
      exact ih _ _ (fun x hx => h x (List.mem_cons_of_mem _ hx))

/-- Claim C10: for a repository on a detached HEAD (no branch carries the
head flag), the state returned by `getProjectStates` has a current branch
with empty name whose revision is the repository's current commit; and with
`checkDirty = false` every returned state has both dirtiness flags `false`
regardless of the repository's actual dirtiness. -/
theorem getProjectStates_detached_nodirty
    (projects : List (String × GitRepo)) (k : String) (repo : GitRepo)
    (hmem : (k, repo) ∈ projects)
    (hdet : ∀ b ∈ repo.branches, b.isHead = false) :
    (k, setProjectState repo false) ∈ getProjectStates projects false ∧
    (setProjectState repo false).currentBranch.ref.name = "" ∧
    (setProjectState repo false).currentBranch.ref.revision = repo.currentRevision ∧
    ∀ p ∈ getProjectStates projects false,
      p.2.hasUncommitted = false ∧ p.2.hasUntracked = false := by
  refine ⟨?_, ?_, ?_, ?_⟩
  · exact List.mem_map_of_mem (fun kr => (kr.1, setProjectState kr.2 false)) hmem
  · simp [setProjectState, scanBranches_snd_of_no_head repo.branches [] _ hdet]
  · simp [setProjectState, scanBranches_snd_of_no_head repo.branches [] _ hdet]
  · intro p hp
    rcases List.mem_map.1 hp with ⟨kr, _, rfl⟩
    exact ⟨rfl, rfl⟩

theorem getProjectStates_detached_nodirty_witness :
    ("p1", setProjectState witnessRepo false) ∈
      getProjectStates [("p1", witnessRepo)] false ∧
    (setProjectState witnessRepo false).currentBranch.ref.name = "" ∧
    (setProjectState witnessRepo false).currentBranch.ref.revision =
      witnessRepo.currentRevision ∧
    ∀ p ∈ getProjectStates [("p1", witnessRepo)] false,
      p.2.hasUncommitted = false ∧ p.2.hasUntracked = false :=
  getProjectStates_detached_nodirty [("p1", witnessRepo)] "p1" witnessRepo
    (List.mem_cons_self _ _) (by decide)

/-! ## Theorems about the manifest loader -/

theorem resolveImport_zero {g : ImportGraph} {stack : List ImportKey}
    {acc : List ProjectDecl} {k : ImportKey} :
    resolveImport g 0 stack acc k = .error .fuelExhausted := by
  rw [resolveImport]

theorem resolveImport_succ_mem {g : ImportGraph} {fuel : Nat} {stack : List ImportKey}
    {acc : List ProjectDecl} {k : ImportKey} (hks : k ∈ stack) :
    resolveImport g (fuel + 1) stack acc k = .error (.importCycle (cycleMessage k)) := by
  rw [resolveImport, if_pos hks]

theorem resolveImport_succ_none {g : ImportGraph} {fuel : Nat} {stack : List ImportKey}
    {acc : List ProjectDecl} {k : ImportKey} (hks : k ∉ stack)
    (hm : lookupManifest g k = none) :
    resolveImport g (fuel + 1) stack acc k = .error (.importFetch k) := by
  rw [resolveImport, if_neg hks]
  simp only [hm]

theorem resolveImport_succ_some_error {g : ImportGraph} {fuel : Nat}
    {stack : List ImportKey} {acc : List ProjectDecl} {k : ImportKey}
    {m : LoaderManifest} {e : LoadError} (hks : k ∉ stack)
    (hm : lookupManifest g k = some m)
    (hx : resolveImportList g fuel (k :: stack) acc m.imports = .error e) :
    resolveImport g (fuel + 1) stack acc k = .error e := by
  rw [resolveImport, if_neg hks]
  simp only [hm, hx]

theorem resolveImport_succ_some_ok {g : ImportGraph} {fuel : Nat}
    {stack : List ImportKey} {acc : List ProjectDecl} {k : ImportKey}
    {m : LoaderManifest} {acc' : List ProjectDecl} (hks : k ∉ stack)
    (hm : lookupManifest g k = some m)
    (hx : resolveImportList g fuel (k :: stack) acc m.imports = .ok acc') :
    resolveImport g (fuel + 1) stack acc k = .ok (mergeProjects acc' m.projects) := by
  rw [resolveImport, if_neg hks]
  simp only [hm, hx]

theorem resolveImportList_nil {g : ImportGraph} {fuel : Nat} {stack : List ImportKey}
    {acc : List ProjectDecl} : resolveImportList g fuel stack acc [] = .ok acc := by
  rw [resolveImportList]

theorem resolveImportList_cons_error {g : ImportGraph} {fuel : Nat}
    {stack : List ImportKey} {acc : List ProjectDecl} {i : ImportKey}
    {is : List ImportKey} {e : LoadError}
    (hx : resolveImport g fuel stack acc i = .error e) :
    resolveImportList g fuel stack acc (i :: is) = .error e := by
  rw [resolveImportList]
  simp only [hx]

theorem resolveImportList_cons_ok {g : ImportGraph} {fuel : Nat}
    {stack : List ImportKey} {acc : List ProjectDecl} {i : ImportKey}
    {is : List ImportKey} {acc' : List ProjectDecl}
    (hx : resolveImport g fuel stack acc i = .ok acc') :
    resolveImportList g fuel stack acc (i :: is) =
      resolveImportList g fuel stack acc' is := by
  rw [resolveImportList]
  simp only [hx]

theorem lookupManifest_mem {g : ImportGraph} {k : ImportKey} {m : LoaderManifest}
    (h : lookupManifest g k = some m) : (k, m) ∈ g := by
  induction g with
  | nil => simp [lookupManifest] at h
  | cons e rest ih =>
      obtain ⟨k', m'⟩ := e
      rw [lookupManifest] at h
      split at h
      · rename_i hk
        injection h with h'
        subst h'
        subst hk
        exact List.mem_cons_self _ _
      · exact List.mem_cons_of_mem _ (ih h)

theorem lookupManifest_isSome_mem {g : ImportGraph} {k : ImportKey}
    (h : (lookupManifest g k).isSome = true) : k ∈ graphKeys g := by
  obtain ⟨m, hm⟩ := Option.isSome_iff_exists.1 h
  exact List.mem_map_of_mem Prod.fst (lookupManifest_mem hm)

theorem stack_length_le_dedup {g : ImportGraph} {stack : List ImportKey}
    (hnd : stack.Nodup)
    (hsub : ∀ x ∈ stack, (lookupManifest g x).isSome = true) :
    stack.length ≤ (graphKeys g).dedup.length := by
  have h3 : stack.toFinset ⊆ (graphKeys g).toFinset := by
    intro x hx
    exact List.mem_toFinset.2 (lookupManifest_isSome_mem (hsub x (List.mem_toFinset.1 hx)))
  calc stack.length = stack.toFinset.card := (List.toFinset_card_of_nodup hnd).symm
    _ ≤ (graphKeys g).toFinset.card := Finset.card_le_card h3
    _ = (graphKeys g).dedup.length := List.card_toFinset _

theorem resolveImportList_ok_mem {g : ImportGraph} {fuel : Nat}
    {stack : List ImportKey} :
    ∀ {ks : List ImportKey} {acc r : List ProjectDecl},
      resolveImportList g fuel stack acc ks = .ok r →
      ∀ i ∈ ks, ∃ a0 r0, resolveImport g fuel stack a0 i = .ok r0 := by
  intro ks
  induction ks with
  | nil => intro acc r _ i hi; cases hi
  | cons j js ih =>
      intro acc r h i hi
      cases hx : resolveImport g fuel stack acc j with
      | error e =>
          rw [resolveImportList_cons_error hx] at h
          simp at h
      | ok acc' =>
          rw [resolveImportList_cons_ok hx] at h
          rcases List.mem_cons.1 hi with rfl | hmem
          · exact ⟨acc, acc', hx⟩
          · exact ih h i hmem

theorem resolve_ok_avoids_stack (g : ImportGraph) : ∀ (fuel : Nat)
    (stack : List ImportKey) (acc : List ProjectDecl) (k : ImportKey)
    (r : List ProjectDecl), resolveImport g fuel stack acc k = .ok r →
    ∀ j, Relation.ReflTransGen (importEdge g) k j → j ∉ stack := by
  intro fuel
  induction fuel with
  | zero =>
      intro stack acc k r h
      rw [resolveImport_zero] at h
      simp at h
  | succ fuel' ih =>
      intro stack acc k r h
      by_cases hks : k ∈ stack
      · rw [resolveImport_succ_mem hks] at h
        simp at h
      · cases hm : lookupManifest g k with
        | none =>
            rw [resolveImport_succ_none hks hm] at h
            simp at h
        | some m =>
            cases hx : resolveImportList g fuel' (k :: stack) acc m.imports with
            | error e =>
                rw [resolveImport_succ_some_error hks hm hx] at h
                simp at h
            | ok acc' =>
                intro j hreach
                rcases Relation.ReflTransGen.cases_head hreach with heq | ⟨c, hedge, hcj⟩
                · subst heq
                  exact hks
                · obtain ⟨m', hm', hcmem⟩ := hedge
                  rw [hm] at hm'
                  injection hm' with hmm
                  subst hmm
                  obtain ⟨a0, r0, hres⟩ := resolveImportList_ok_mem hx c hcmem
                  intro hjstack
                  exact (ih (k :: stack) a0 c r0 hres j hcj) (List.mem_cons_of_mem _ hjstack)

theorem resolve_ok_no_cycle (g : ImportGraph) : ∀ (fuel : Nat)
    (stack : List ImportKey) (acc : List ProjectDecl) (k : ImportKey)
    (r : List ProjectDecl), resolveImport g fuel stack acc k = .ok r →
    ∀ j, Relation.ReflTransGen (importEdge g) k j →
      ¬ Relation.TransGen (importEdge g) j j := by
  intro fuel
  induction fuel with
  | zero =>
      intro stack acc k r h
      rw [resolveImport_zero] at h
      simp at h
  | succ fuel' ih =>
      intro stack acc k r h
      by_cases hks : k ∈ stack
      · rw [resolveImport_succ_mem hks] at h
        simp at h
      · cases hm : lookupManifest g k with
        | none =>
            rw [resolveImport_succ_none hks hm] at h
            simp at h
        | some m =>
            cases hx : resolveImportList g fuel' (k :: stack) acc m.imports with
            | error e =>
                rw [resolveImport_succ_some_error hks hm hx] at h
                simp at h
            | ok acc' =>
                intro j hreach hcyc
                rcases Relation.ReflTransGen.cases_head hreach with heq | ⟨c, hedge, hcj⟩
                · subst heq
                  obtain ⟨c, hedge, hck⟩ := Relation.TransGen.head'_iff.1 hcyc
                  obtain ⟨m', hm', hcmem⟩ := hedge
                  rw [hm] at hm'
                  injection hm' with hmm
                  subst hmm
                  obtain ⟨a0, r0, hres⟩ := resolveImportList_ok_mem hx c hcmem
                  exact (resolve_ok_avoids_stack g fuel' (k :: stack) a0 c r0 hres k hck)
                    (List.mem_cons_self _ _)
                · obtain ⟨m', hm', hcmem⟩ := hedge
                  rw [hm] at hm'
                  injection hm' with hmm
                  subst hmm
                  obtain ⟨a0, r0, hres⟩ := resolveImportList_ok_mem hx c hcmem
                  exact ih (k :: stack) a0 c r0 hres j hcj hcyc

theorem resolve_no_fetch (g : ImportGraph) : ∀ (fuel : Nat),
    (∀ stack acc k,
       (∀ j, Relation.ReflTransGen (importEdge g) k j →
          (lookupManifest g j).isSome = true) →
       ∀ e, resolveImport g fuel stack acc k ≠ .error (.importFetch e)) ∧
    (∀ stack acc ks,
       (∀ i ∈ ks, ∀ j, Relation.ReflTransGen (importEdge g) i j →
          (lookupManifest g j).isSome = true) →
       ∀ e, resolveImportList g fuel stack acc ks ≠ .error (.importFetch e)) := by
  intro fuel
  induction fuel with
  | zero =>
      constructor
      · intro stack acc k _ e
        rw [resolveImport_zero]
        simp
      · intro stack acc ks _ e
        cases ks with
        | nil => rw [resolveImportList_nil]; simp
        | cons i is => rw [resolveImportList_cons_error resolveImport_zero]; simp
  | succ fuel' ih =>
      have h1 : ∀ stack acc k,
          (∀ j, Relation.ReflTransGen (importEdge g) k j →
             (lookupManifest g j).isSome = true) →
          ∀ e, resolveImport g (fuel' + 1) stack acc k ≠ .error (.importFetch e) := by
        intro stack acc k hk e
        by_cases hks : k ∈ stack
        · rw [resolveImport_succ_mem hks]; simp
        · cases hm : lookupManifest g k with
          | none =>
              have hsome := hk k Relation.ReflTransGen.refl
              rw [hm] at hsome
              simp at hsome
          | some m =>
              have himp : ∀ i ∈ m.imports, ∀ j,
                  Relation.ReflTransGen (importEdge g) i j →
                  (lookupManifest g j).isSome = true := by
                intro i hi j hij
                exact hk j (Relation.ReflTransGen.head ⟨m, hm, hi⟩ hij)
              cases hx : resolveImportList g fuel' (k :: stack) acc m.imports with
              | error e' =>
                  rw [resolveImport_succ_some_error hks hm hx]
                  intro hcontra
                  injection hcontra with h'
                  exact ih.2 (k :: stack) acc m.imports himp e (by rw [hx, h'])
              | ok acc' => rw [resolveImport_succ_some_ok hks hm hx]; simp
      refine ⟨h1, ?_⟩
      intro stack acc ks
      induction ks generalizing acc with
      | nil => intro _ e; rw [resolveImportList_nil]; simp
      | cons i is ihks =>
          intro hk e
          cases hx : resolveImport g (fuel' + 1) stack acc i with
          | error e' =>
              rw [resolveImportList_cons_error hx]
              intro hcontra
              injection hcontra with h'
              exact h1 stack acc i (hk i (List.mem_cons_self _ _)) e (by rw [hx, h'])
          | ok acc' =>
              rw [resolveImportList_cons_ok hx]
              exact ihks acc' (fun i' hi' => hk i' (List.mem_cons_of_mem _ hi')) e

theorem resolve_no_fuel (g : ImportGraph) : ∀ (fuel : Nat),
    (∀ stack acc k, stack.Nodup →
       (∀ x ∈ stack, (lookupManifest g x).isSome = true) →
       (graphKeys g).dedup.length < fuel + stack.length →
       resolveImport g fuel stack acc k ≠ .error .fuelExhausted) ∧
    (∀ stack acc ks, stack.Nodup →
       (∀ x ∈ stack, (lookupManifest g x).isSome = true) →
       (graphKeys g).dedup.length < fuel + stack.length →
       resolveImportList g fuel stack acc ks ≠ .error .fuelExhausted) := by
  intro fuel
  induction fuel with
  | zero =>
      constructor
      · intro stack acc k hnd hsub hlt
        have hle := stack_length_le_dedup hnd hsub
        exact absurd hlt (by omega)
      · intro stack acc ks hnd hsub hlt
        have hle := stack_length_le_dedup hnd hsub
        exact absurd hlt (by omega)
  | succ fuel' ih =>
      have h1 : ∀ stack acc k, stack.Nodup →
          (∀ x ∈ stack, (lookupManifest g x).isSome = true) →
          (graphKeys g).dedup.length < (fuel' + 1) + stack.length →
          resolveImport g (fuel' + 1) stack acc k ≠ .error .fuelExhausted := by
        intro stack acc k hnd hsub hlt
        by_cases hks : k ∈ stack
        · rw [resolveImport_succ_mem hks]; simp
        · cases hm : lookupManifest g k with
          | none => rw [resolveImport_succ_none hks hm]; simp
          | some m =>
              have hlist := ih.2 (k :: stack) acc m.imports
                (List.nodup_cons.2 ⟨hks, hnd⟩)
                (by intro x hx
                    rcases List.mem_cons.1 hx with rfl | hx'
                    · rw [hm]; rfl
                    · exact hsub x hx')
                (by simp only [List.length_cons]; omega)
              cases hx : resolveImportList g fuel' (k :: stack) acc m.imports with
              | error e =>
                  rw [resolveImport_succ_some_error hks hm hx]
                  intro hcontra
                  injection hcontra with h'
                  exact hlist (by rw [hx, h'])
              | ok acc' => rw [resolveImport_succ_some_ok hks hm hx]; simp
      refine ⟨h1, ?_⟩
      intro stack acc ks
      induction ks generalizing acc with
      | nil => intro _ _ _; rw [resolveImportList_nil]; simp
      | cons i is ihks =>
          intro hnd hsub hlt
          cases hx : resolveImport g (fuel' + 1) stack acc i with
          | error e =>
              rw [resolveImportList_cons_error hx]
              intro hcontra
              injection hcontra with h'
              exact h1 stack acc i hnd hsub hlt (by rw [hx, h'])
          | ok acc' =>
              rw [resolveImportList_cons_ok hx]
              exact ihks acc' hnd hsub hlt

theorem resolve_cycle_msg (g : ImportGraph) : ∀ (fuel : Nat),
    (∀ stack acc k msg,
       resolveImport g fuel stack acc k = .error (.importCycle msg) →
       ∃ k', msg = cycleMessage k') ∧
    (∀ stack acc ks msg,
       resolveImportList g fuel stack acc ks = .error (.importCycle msg) →
       ∃ k', msg = cycleMessage k') := by
  intro fuel
  induction fuel with
  | zero =>
      constructor
      · intro stack acc k msg h
        rw [resolveImport_zero] at h
        simp at h
      · intro stack acc ks msg h
        cases ks with
        | nil => rw [resolveImportList_nil] at h; simp at h
        | cons i is =>
            rw [resolveImportList_cons_error resolveImport_zero] at h
            simp at h
  | succ fuel' ih =>
      have h1 : ∀ stack acc k msg,
          resolveImport g (fuel' + 1) stack acc k = .error (.importCycle msg) →
          ∃ k', msg = cycleMessage k' := by
        intro stack acc k msg h
        by_cases hks : k ∈ stack
        · rw [resolveImport_succ_mem hks] at h
          injection h with h'
          injection h' with h''
          exact ⟨k, h''.symm⟩
        · cases hm : lookupManifest g k with
          | none => rw [resolveImport_succ_none hks hm] at h; simp at h
          | some m =>
              cases hx : resolveImportList g fuel' (k :: stack) acc m.imports with
              | error e =>
                  rw [resolveImport_succ_some_error hks hm hx] at h
                  injection h with h'
                  subst h'
                  exact ih.2 (k :: stack) acc m.imports msg hx
              | ok acc' =>
                  rw [resolveImport_succ_some_ok hks hm hx] at h
                  simp at h
      refine ⟨h1, ?_⟩
      intro stack acc ks
      induction ks generalizing acc with
      | nil => intro msg h; rw [resolveImportList_nil] at h; simp at h
      | cons i is ihks =>
          intro msg h
          cases hx : resolveImport g (fuel' + 1) stack acc i with
          | error e =>
              rw [resolveImportList_cons_error hx] at h
              injection h with h'
              subst h'
              exact h1 stack acc i msg hx
          | ok acc' =>
              rw [resolveImportList_cons_ok hx] at h
              exact ihks acc' msg h

theorem closedGraph_of_entries (g : ImportGraph) (root : ImportKey)
    (hroot : (lookupManifest g root).isSome = true)
    (hstep : ∀ e ∈ g, ∀ i ∈ e.2.imports, (lookupManifest g i).isSome = true) :
    ClosedGraph g root := by
  intro k hreach
  have hreach' : Relation.ReflTransGen (importEdge g) root k := hreach
  induction hreach' with
  | refl => exact hroot
  | tail hab hbc ih =>
      obtain ⟨m, hm, hmem⟩ := hbc
      exact hstep (_, m) (lookupManifest_mem hm) _ hmem

/-- Claim C2: for every import graph whose reachable part contains a cycle —
through local-file imports, remote imports, or a mixture — the load stage
fails with an `ImportCycle` error whose message contains the phrase
"import cycle detected", and no consolidated project list is produced
(the result is an error, which carries no projects). -/
theorem loadManifest_import_cycle (g : ImportGraph) (root : ImportKey)
    (hc : ClosedGraph g root) (hcyc : HasImportCycle g root) :
    ∃ msg, loadManifest g root = .error (.importCycle msg) ∧
      containsPhrase msg "import cycle detected" := by
  cases hres : loadManifest g root with
  | ok r =>
      exfalso
      obtain ⟨j, hreach, hj⟩ := hcyc
      have hres' : resolveImport g (g.length + 1) [] [] root = .ok r := hres
      exact resolve_ok_no_cycle g (g.length + 1) [] [] root r hres' j hreach hj
  | error e =>
      cases e with
      | importCycle msg =>
          refine ⟨msg, rfl, ?_⟩
          have hres' : resolveImport g (g.length + 1) [] [] root =
              .error (.importCycle msg) := hres
          obtain ⟨k', hk'⟩ := (resolve_cycle_msg g (g.length + 1)).1 [] [] root msg hres'
          subst hk'
          cases k' with
          | localFile p => exact ⟨"", " in local manifest files", rfl⟩
          | remoteImport a b c => exact ⟨"", " in remote manifest imports", rfl⟩
      | importFetch key =>
          exfalso
          have hres' : resolveImport g (g.length + 1) [] [] root =
              .error (.importFetch key) := hres
          exact (resolve_no_fetch g (g.length + 1)).1 [] [] root hc key hres'
      | fuelExhausted =>
          exfalso
          have hres' : resolveImport g (g.length + 1) [] [] root =
              .error .fuelExhausted := hres
          refine (resolve_no_fuel g (g.length + 1)).1 [] [] root List.nodup_nil
            (by intro x hx; cases hx) ?_ hres'
          have hd : (graphKeys g).dedup.length ≤ (graphKeys g).length :=
            ((graphKeys g).dedup_sublist).length_le
          have hml : (graphKeys g).length = g.length := List.length_map _ _
          simp only [List.length_nil]
          omega

/-- Witness for C2: the mixed local/remote cycle of
`TestFileAndRemoteImportCycle` is detected. -/
theorem loadManifest_import_cycle_witness :
    ∃ msg, loadManifest cycleGraphEx keyRootEx = .error (.importCycle msg) ∧
      containsPhrase msg "import cycle detected" := by
  apply loadManifest_import_cycle
  · exact closedGraph_of_entries _ _ (by decide) (by decide)
  · have e1 : importEdge cycleGraphEx keyRootEx keyR1A :=
      ⟨{ imports := [keyR1A], projects := [] }, by decide, by decide⟩
    have e2 : importEdge cycleGraphEx keyR1A keyR2B :=
      ⟨{ imports := [keyR2B], projects := [] }, by decide, by decide⟩
    have e3 : importEdge cycleGraphEx keyR2B keyLC :=
      ⟨{ imports := [keyLC], projects := [] }, by decide, by decide⟩
    have e4 : importEdge cycleGraphEx keyLC keyR1D :=
      ⟨{ imports := [keyR1D], projects := [] }, by decide, by decide⟩
    have e5 : importEdge cycleGraphEx keyR1D keyLA :=
      ⟨{ imports := [keyLA], projects := [] }, by decide, by decide⟩
    have e6 : importEdge cycleGraphEx keyLA keyR2B :=
      ⟨{ imports := [keyR2B], projects := [] }, by decide, by decide⟩
    refine ⟨keyR2B, ?_, ?_⟩
    · exact Relation.ReflTransGen.head e1
        (Relation.ReflTransGen.head e2 Relation.ReflTransGen.refl)
    · exact Relation.TransGen.head e3
        (Relation.TransGen.head e4
          (Relation.TransGen.head e5 (Relation.TransGen.single e6)))

/-! ## Theorems about the local scanner -/

/-- Claim C7: with a latest snapshot present, a FAST scan returns exactly the
snapshot's projects when every one of them still exists on disk; if any
candidate is missing from disk, the FAST scan transparently upgrades to a
FULL scan and returns every project found in the workspace. -/
theorem localProjects_fastScan_spec (disk cands : List ScanProject) :
    ((∀ c ∈ cands, existsOnDisk disk c = true) →
       localProjects disk (some cands) .fastScan = cands) ∧
    ((∃ c ∈ cands, existsOnDisk disk c = false) →
       localProjects disk (some cands) .fastScan =
         localProjects disk (some cands) .fullScan ∧
       localProjects disk (some cands) .fastScan = disk) := by
  constructor
  · intro hall
    have h : cands.all (existsOnDisk disk) = true := List.all_eq_true.2 hall
    simp [localProjects, h]
  · intro ⟨c, hc, hmiss⟩
    have h : cands.all (existsOnDisk disk) = false := by
      by_contra hne
      have := List.all_eq_true.1 (eq_true_of_ne_false hne) c hc
      rw [hmiss] at this
      cases this
    simp [localProjects, h]

/-- Witness for C7: the `TestLocalProjects` scenario — snapshot records
only project 0; while its directory exists FAST returns just project 0;
after deleting it FAST falls back to the full scan result. -/
theorem localProjects_fastScan_spec_witness :
    localProjects [scanP0, scanP1, scanP2] (some [scanP0]) .fastScan = [scanP0] ∧
    (localProjects [scanP1, scanP2] (some [scanP0]) .fastScan =
       localProjects [scanP1, scanP2] (some [scanP0]) .fullScan ∧
     localProjects [scanP1, scanP2] (some [scanP0]) .fastScan = [scanP1, scanP2]) :=
  ⟨(localProjects_fastScan_spec [scanP0, scanP1, scanP2] [scanP0]).1 (by decide),
   (localProjects_fastScan_spec [scanP1, scanP2] [scanP0]).2 ⟨scanP0, by decide, by decide⟩⟩

/-! ## Theorems about manifest serialization -/

theorem lookupAttr_skip (k v key : String) (hk : k ≠ key)
    (rest : List (String × String)) :
    lookupAttr (attrIf k v ++ rest) key = lookupAttr rest key := by
  by_cases hv : v = "" <;> simp [attrIf, hv, lookupAttr, hk]

theorem lookupAttr_here (k v : String) (rest : List (String × String)) :
    lookupAttr (attrIf k v ++ rest) k = if v = "" then lookupAttr rest k else v := by
  by_cases hv : v = "" <;> simp [attrIf, hv, lookupAttr]

theorem lookupAttr_last_ne (k v key : String) (hk : k ≠ key) :
    lookupAttr (attrIf k v) key = "" := by
  by_cases hv : v = "" <;> simp [attrIf, hv, lookupAttr, hk]

theorem lookupAttr_last (k v : String) :
    lookupAttr (attrIf k v) k = if v = "" then "" else v := by
  by_cases hv : v = "" <;> simp [attrIf, hv, lookupAttr]

theorem projElem_name (p : MProject) :
    lookupAttr (projectToElem p).attrs "name" = p.name := by
  show lookupAttr (attrIf "name" p.name ++ _) "name" = p.name
  rw [lookupAttr_here]
  split
  · rename_i h
    rw [lookupAttr_skip "path" p.path "name" (by decide),
        lookupAttr_skip "remote" p.remote "name" (by decide),
        lookupAttr_skip "remotebranch" (unfillBranch p.remoteBranch) "name" (by decide),
        lookupAttr_skip "revision" (unfillRevision p.revision) "name" (by decide),
        lookupAttr_skip "gerrithost" p.gerritHost "name" (by decide),
        lookupAttr_last_ne "githooks" p.gitHooks "name" (by decide)]
    exact h.symm
  · rfl

theorem projElem_path (p : MProject) :
    lookupAttr (projectToElem p).attrs "path" = p.path := by
  show lookupAttr (attrIf "name" p.name ++ _) "path" = p.path
  rw [lookupAttr_skip "name" p.name "path" (by decide), lookupAttr_here]
  split
  · rename_i h
    rw [lookupAttr_skip "remote" p.remote "path" (by decide),
        lookupAttr_skip "remotebranch" (unfillBranch p.remoteBranch) "path" (by decide),
        lookupAttr_skip "revision" (unfillRevision p.revision) "path" (by decide),
        lookupAttr_skip "gerrithost" p.gerritHost "path" (by decide),
        lookupAttr_last_ne "githooks" p.gitHooks "path" (by decide)]
    exact h.symm
  · rfl

theorem projElem_remote (p : MProject) :
    lookupAttr (projectToElem p).attrs "remote" = p.remote := by
  show lookupAttr (attrIf "name" p.name ++ _) "remote" = p.remote
  rw [lookupAttr_skip "name" p.name "remote" (by decide),
      lookupAttr_skip "path" p.path "remote" (by decide), lookupAttr_here]
  split
  · rename_i h
    rw [lookupAttr_skip "remotebranch" (unfillBranch p.remoteBranch) "remote" (by decide),
        lookupAttr_skip "revision" (unfillRevision p.revision) "remote" (by decide),
        lookupAttr_skip "gerrithost" p.gerritHost "remote" (by decide),
        lookupAttr_last_ne "githooks" p.gitHooks "remote" (by decide)]
    exact h.symm
  · rfl

theorem projElem_remoteBranch (p : MProject) :
    lookupAttr (projectToElem p).attrs "remotebranch" = unfillBranch p.remoteBranch := by
  show lookupAttr (attrIf "name" p.name ++ _) "remotebranch" = _
  rw [lookupAttr_skip "name" p.name "remotebranch" (by decide),
      lookupAttr_skip "path" p.path "remotebranch" (by decide),
      lookupAttr_skip "remote" p.remote "remotebranch" (by decide), lookupAttr_here]
  split
  · rename_i h
    rw [lookupAttr_skip "revision" (unfillRevision p.revision) "remotebranch" (by decide),
        lookupAttr_skip "gerrithost" p.gerritHost "remotebranch" (by decide),
        lookupAttr_last_ne "githooks" p.gitHooks "remotebranch" (by decide)]
    exact h.symm
  · rfl

theorem projElem_revision (p : MProject) :
    lookupAttr (projectToElem p).attrs "revision" = unfillRevision p.revision := by
  show lookupAttr (attrIf "name" p.name ++ _) "revision" = _
  rw [lookupAttr_skip "name" p.name "revision" (by decide),
      lookupAttr_skip "path" p.path "revision" (by decide),
      lookupAttr_skip "remote" p.remote "revision" (by decide),
      lookupAttr_skip "remotebranch" (unfillBranch p.remoteBranch) "revision" (by decide),
      lookupAttr_here]
  split
  · rename_i h
    rw [lookupAttr_skip "gerrithost" p.gerritHost "revision" (by decide),
        lookupAttr_last_ne "githooks" p.gitHooks "revision" (by decide)]
    exact h.symm
  · rfl

theorem projElem_gerritHost (p : MProject) :
    lookupAttr (projectToElem p).attrs "gerrithost" = p.gerritHost := by
  show lookupAttr (attrIf "name" p.name ++ _) "gerrithost" = p.gerritHost
  rw [lookupAttr_skip "name" p.name "gerrithost" (by decide),
      lookupAttr_skip "path" p.path "gerrithost" (by decide),
      lookupAttr_skip "remote" p.remote "gerrithost" (by decide),
      lookupAttr_skip "remotebranch" (unfillBranch p.remoteBranch) "gerrithost" (by decide),
      lookupAttr_skip "revision" (unfillRevision p.revision) "gerrithost" (by decide),
      lookupAttr_here]
  split
  · rename_i h
    rw [lookupAttr_last_ne "githooks" p.gitHooks "gerrithost" (by decide)]
    exact h.symm
  · rfl

theorem projElem_gitHooks (p : MProject) :
    lookupAttr (projectToElem p).attrs "githooks" = p.gitHooks := by
  show lookupAttr (attrIf "name" p.name ++ _) "githooks" = p.gitHooks
  rw [lookupAttr_skip "name" p.name "githooks" (by decide),
      lookupAttr_skip "path" p.path "githooks" (by decide),
      lookupAttr_skip "remote" p.remote "githooks" (by decide),
      lookupAttr_skip "remotebranch" (unfillBranch p.remoteBranch) "githooks" (by decide),
      lookupAttr_skip "revision" (unfillRevision p.revision) "githooks" (by decide),
      lookupAttr_skip "gerrithost" p.gerritHost "githooks" (by decide),
      lookupAttr_last]
  split
  · rename_i h; exact h.symm
  · rfl

theorem fill_unfill_branch (b : String) (hb : b ≠ "") :
    fillBranch (unfillBranch b) = b := by
  unfold unfillBranch fillBranch
  by_cases h : b = "master"
  · simp [h]
  · simp [h, hb]

theorem fill_unfill_revision (r : String) (hr : r ≠ "") :
    fillRevision (unfillRevision r) = r := by
  unfold unfillRevision fillRevision
  by_cases h : r = "HEAD"
  · simp [h]
  · simp [h, hr]

theorem projectRT (p : MProject) (hb : p.remoteBranch ≠ "") (hr : p.revision ≠ "") :
    projectOfAttrs (projectToElem p).attrs = p := by
  unfold projectOfAttrs
  rw [projElem_name, projElem_path, projElem_remote, projElem_remoteBranch,
      projElem_revision, projElem_gerritHost, projElem_gitHooks,
      fill_unfill_branch _ hb, fill_unfill_revision _ hr]

theorem importElem_manifest (i : MImport) :
    lookupAttr (importToElem i).attrs "manifest" = i.manifest := by
  show lookupAttr (attrIf "manifest" i.manifest ++ _) "manifest" = i.manifest
  rw [lookupAttr_here]
  split
  · rename_i h
    rw [lookupAttr_skip "name" i.name "manifest" (by decide),
        lookupAttr_skip "remote" i.remote "manifest" (by decide),
        lookupAttr_last_ne "remotebranch" (unfillBranch i.remoteBranch) "manifest" (by decide)]
    exact h.symm
  · rfl

theorem importElem_name (i : MImport) :
    lookupAttr (importToElem i).attrs "name" = i.name := by
  show lookupAttr (attrIf "manifest" i.manifest ++ _) "name" = i.name
  rw [lookupAttr_skip "manifest" i.manifest "name" (by decide), lookupAttr_here]
  split
  · rename_i h
    rw [lookupAttr_skip "remote" i.remote "name" (by decide),
        lookupAttr_last_ne "remotebranch" (unfillBranch i.remoteBranch) "name" (by decide)]
    exact h.symm
  · rfl

theorem importElem_remote (i : MImport) :
    lookupAttr (importToElem i).attrs "remote" = i.remote := by
  show lookupAttr (attrIf "manifest" i.manifest ++ _) "remote" = i.remote
  rw [lookupAttr_skip "manifest" i.manifest "remote" (by decide),
      lookupAttr_skip "name" i.name "remote" (by decide), lookupAttr_here]
  split
  · rename_i h
    rw [lookupAttr_last_ne "remotebranch" (unfillBranch i.remoteBranch) "remote" (by decide)]
    exact h.symm
  · rfl

theorem importElem_remoteBranch (i : MImport) :
    lookupAttr (importToElem i).attrs "remotebranch" = unfillBranch i.remoteBranch := by
  show lookupAttr (attrIf "manifest" i.manifest ++ _) "remotebranch" = _
  rw [lookupAttr_skip "manifest" i.manifest "remotebranch" (by decide),
      lookupAttr_skip "name" i.name "remotebranch" (by decide),
      lookupAttr_skip "remote" i.remote "remotebranch" (by decide),
      lookupAttr_last]
  split
  · rename_i h; exact h.symm
  · rfl

theorem importRT (i : MImport) (hb : i.remoteBranch ≠ "") :
    importOfAttrs (importToElem i).attrs = i := by
  unfold importOfAttrs
  rw [importElem_manifest, importElem_name, importElem_remote,
      importElem_remoteBranch, fill_unfill_branch _ hb]

theorem localImportRT (l : MLocalImport) :
    localImportOfAttrs (localImportToElem l).attrs = l := by
  unfold localImportOfAttrs
  show { file := lookupAttr (attrIf "file" l.file) "file" } = l
  rw [lookupAttr_last]
  split
  · rename_i h; rw [h.symm]
  · rfl

theorem hookElem_name (h : MHook) :
    lookupAttr (hookToElem h).attrs "name" = h.name := by
  show lookupAttr (attrIf "name" h.name ++ _) "name" = h.name
  rw [lookupAttr_here]
  split
  · rename_i hh
    rw [lookupAttr_skip "action" h.action "name" (by decide),
        lookupAttr_last_ne "project" h.projectName "name" (by decide)]
    exact hh.symm
  · rfl

theorem hookElem_action (h : MHook) :
    lookupAttr (hookToElem h).attrs "action" = h.action := by
  show lookupAttr (attrIf "name" h.name ++ _) "action" = h.action
  rw [lookupAttr_skip "name" h.name "action" (by decide), lookupAttr_here]
  split
  · rename_i hh
    rw [lookupAttr_last_ne "project" h.projectName "action" (by decide)]
    exact hh.symm
  · rfl

theorem hookElem_project (h : MHook) :
    lookupAttr (hookToElem h).attrs "project" = h.projectName := by
  show lookupAttr (attrIf "name" h.name ++ _) "project" = h.projectName
  rw [lookupAttr_skip "name" h.name "project" (by decide),
      lookupAttr_skip "action" h.action "project" (by decide),
      lookupAttr_last]
  split
  · rename_i hh; exact hh.symm
  · rfl

theorem hookRT (h : MHook) : hookOfAttrs (hookToElem h).attrs = h := by
  unfold hookOfAttrs
  rw [hookElem_name, hookElem_action, hookElem_project]

theorem addElem_import (m : Manifest) (i : MImport) :
    addElem m (importToElem i) =
      { m with imports := m.imports ++ [importOfAttrs (importToElem i).attrs] } := by
  simp [addElem, importToElem]

theorem addElem_localImport (m : Manifest) (l : MLocalImport) :
    addElem m (localImportToElem l) =
      { m with localImports :=
          m.localImports ++ [localImportOfAttrs (localImportToElem l).attrs] } := by
  simp [addElem, localImportToElem]

theorem addElem_project (m : Manifest) (p : MProject) :
    addElem m (projectToElem p) =
      { m with projects := m.projects ++ [projectOfAttrs (projectToElem p).attrs] } := by
  simp [addElem, projectToElem]

theorem addElem_hook (m : Manifest) (h : MHook) :
    addElem m (hookToElem h) =
      { m with hooks := m.hooks ++ [hookOfAttrs (hookToElem h).attrs] } := by
  simp [addElem, hookToElem]

theorem foldl_addElem_imports (is : List MImport) : ∀ (acc : Manifest),
    (∀ i ∈ is, i.remoteBranch ≠ "") →
    List.foldl addElem acc (is.map importToElem) =
      { acc with imports := acc.imports ++ is } := by
  induction is with
  | nil => intro acc _; simp
  | cons i is ih =>
      intro acc hall
      simp only [List.map_cons, List.foldl_cons]
      rw [addElem_import, importRT i (hall i (List.mem_cons_self _ _)),
          ih _ (fun x hx => hall x (List.mem_cons_of_mem _ hx))]
      simp

theorem foldl_addElem_localImports (ls : List MLocalImport) : ∀ (acc : Manifest),
    List.foldl addElem acc (ls.map localImportToElem) =
      { acc with localImports := acc.localImports ++ ls } := by
  induction ls with
  | nil => intro acc; simp
  | cons l ls ih =>
      intro acc
      simp only [List.map_cons, List.foldl_cons]
      rw [addElem_localImport, localImportRT l, ih]
      simp

theorem foldl_addElem_projects (ps : List MProject) : ∀ (acc : Manifest),
    (∀ q ∈ ps, q.remoteBranch ≠ "" ∧ q.revision ≠ "") →
    List.foldl addElem acc (ps.map projectToElem) =
      { acc with projects := acc.projects ++ ps } := by
  induction ps with
  | nil => intro acc _; simp
  | cons p ps ih =>
      intro acc hall
      simp only [List.map_cons, List.foldl_cons]
      rw [addElem_project,
          projectRT p (hall p (List.mem_cons_self _ _)).1 (hall p (List.mem_cons_self _ _)).2,
          ih _ (fun x hx => hall x (List.mem_cons_of_mem _ hx))]
      simp

theorem foldl_addElem_hooks (hs : List MHook) : ∀ (acc : Manifest),
    List.foldl addElem acc (hs.map hookToElem) =
      { acc with hooks := acc.hooks ++ hs } := by
  induction hs with
  | nil => intro acc; simp
  | cons h hs ih =>
      intro acc
      simp only [List.map_cons, List.foldl_cons]
      rw [addElem_hook, hookRT h, ih]
      simp

theorem manifestRT (m : Manifest)
    (him : ∀ i ∈ m.imports, i.remoteBranch ≠ "")
    (hpr : ∀ q ∈ m.projects, q.remoteBranch ≠ "" ∧ q.revision ≠ "") :
    manifestOfElems (manifestToElems m) = m := by
  unfold manifestOfElems manifestToElems
  rw [List.foldl_append, List.foldl_append, List.foldl_append,
      foldl_addElem_imports m.imports emptyManifest him,
      foldl_addElem_localImports,
      foldl_addElem_projects m.projects _ hpr,
      foldl_addElem_hooks]
  simp [emptyManifest]

/-- Claim C8: serializing a manifest (or a project) to its textual form and
parsing it back yields an equal value: defaults (remote-branch "master",
revision "HEAD") are elided on write and re-supplied on read; the
hypotheses say the value is in the normalized form produced by reading
(no empty remote-branch or revision fields). -/
theorem manifest_project_roundtrip (m : Manifest) (p : MProject)
    (him : ∀ i ∈ m.imports, i.remoteBranch ≠ "")
    (hpr : ∀ q ∈ m.projects, q.remoteBranch ≠ "" ∧ q.revision ≠ "")
    (hb : p.remoteBranch ≠ "") (hr : p.revision ≠ "") :
    manifestOfElems (manifestToElems m) = m ∧
    projectOfAttrs (projectToElem p).attrs = p :=
  ⟨manifestRT m him hpr, projectRT p hb hr⟩

/-- Witness for C8: the manifest of `TestManifestToFromBytes` and the
project of `TestProjectToFromFile` round-trip. -/
theorem manifest_project_roundtrip_witness :
    manifestOfElems (manifestToElems manifestEx) = manifestEx ∧
    projectOfAttrs (projectToElem projectEx).attrs = projectEx :=
  manifest_project_roundtrip manifestEx projectEx
    (by decide) (by decide) (by decide) (by decide)

/-! ## Theorems about the planner and executor -/

theorem findDesired_none {ds : List DesiredProj} {k : String}
    (h : findDesired ds k = none) : ∀ d ∈ ds, d.key ≠ k := by
  induction ds with
  | nil => intro d hd; cases hd
  | cons d0 rest ih =>
      intro d hd
      rw [findDesired] at h
      split at h
      · cases h
      · rename_i hne
        rcases List.mem_cons.1 hd with rfl | hmem
        · exact hne
        · exact ih h d hmem

theorem applyOp_key {desired : List DesiredProj} {locals : List LocalProj}
    {gc : Bool} {l r : LocalProj}
    (h : applyOp desired locals gc l = some r) : r.key = l.key := by
  unfold applyOp at h
  split at h
  · injection h with h'; rw [h'.symm]
  · cases h
  · split at h
    · injection h with h'; rw [h'.symm]
    · injection h with h'; rw [h'.symm]

/-- Claim C3: a local project whose local config has `ignore = true` is
planned as a Null operation — never created, moved, updated, or deleted —
for every desired manifest and both values of the gc flag; after executing
the plan it is still present, at its old path, with its old contents. -/
theorem ignored_projects_frozen (desired : List DesiredProj)
    (locals : List LocalProj) (gc : Bool) (l : LocalProj)
    (hmem : l ∈ locals) (hig : l.ignore = true) :
    planOp desired locals gc l = .null ∧ l ∈ executePlan desired locals gc := by
  have hplan : planOp desired locals gc l = .null := by simp [planOp, hig]
  refine ⟨hplan, List.mem_append_left _ ?_⟩
  exact List.mem_filterMap.2 ⟨l, hmem, by simp [applyOp, hplan]⟩

/-- Witness for C3: the ignored project of `TestIgnoredProjectsNotDeleted`
is dropped from the manifest, gc is on, and yet its operation is Null and
it survives unchanged. -/
theorem ignored_projects_frozen_witness :
    planOp desiredEx [lpIgnored] true lpIgnored = .null ∧
    lpIgnored ∈ executePlan desiredEx [lpIgnored] true :=
  ignored_projects_frozen desiredEx [lpIgnored] true lpIgnored
    (List.mem_cons_self _ _) (by decide)

/-- Claim C4: with gc on, a local project absent from the desired manifest
is deleted exactly when no project at or under its path is dirty: if some
nested project (possibly itself) holds uncommitted or untracked files, the
Delete is downgraded to Null and the project survives unchanged — so the
whole ancestor chain above a dirty project is preserved — while a clean
project marked for deletion is removed. -/
theorem dirty_delete_policy (desired : List DesiredProj)
    (locals : List LocalProj) (l : LocalProj) (hmem : l ∈ locals)
    (hkeys : (locals.map LocalProj.key).Nodup)
    (habsent : findDesired desired l.key = none)
    (hig : l.ignore = false) :
    (subtreeDirty locals l.path = true →
       planOp desired locals true l = .null ∧
       l ∈ executePlan desired locals true) ∧
    (subtreeDirty locals l.path = false →
       planOp desired locals true l = .delete ∧
       ∀ r ∈ executePlan desired locals true, r.key ≠ l.key) := by
  constructor
  · intro hdirty
    have hplan : planOp desired locals true l = .null := by
      simp [planOp, hig, habsent, hdirty]
    refine ⟨hplan, List.mem_append_left _ ?_⟩
    exact List.mem_filterMap.2 ⟨l, hmem, by simp [applyOp, hplan]⟩
  · intro hclean
    have hplan : planOp desired locals true l = .delete := by
      simp [planOp, hig, habsent, hclean]
    refine ⟨hplan, ?_⟩
    intro r hr hrkey
    rcases List.mem_append.1 hr with hsurv | hnew
    · obtain ⟨l', hl', happ⟩ := List.mem_filterMap.1 hsurv
      have hk : l'.key = l.key := (applyOp_key happ).symm.trans hrkey
      have heq : l' = l :=
        List.inj_on_of_nodup_map hkeys hl' hmem hk
      subst heq
      rw [show applyOp desired locals true l' = none by
            simp [applyOp, hplan]] at happ
      cases happ
    · obtain ⟨d, hd, hdr⟩ := List.mem_map.1 hnew
      have hdk : d.key = l.key := by rw [hdr.symm] at hrkey; exact hrkey
      exact findDesired_none habsent d (List.mem_filter.1 hd).1 hdk

/-- Witness for C4: in the 7-project universe with projects 1–5 dropped
and project 4 dirty, the ancestors 2 (and 4 itself) survive the gc run
while the clean projects 1 and 5 (a sibling nested under the preserved
ancestor) are removed. -/
theorem dirty_delete_policy_witness :
    (planOp desiredEx localsEx true lp2 = .null ∧
       lp2 ∈ executePlan desiredEx localsEx true) ∧
    (planOp desiredEx localsEx true lp4 = .null ∧
       lp4 ∈ executePlan desiredEx localsEx true) ∧
    (planOp desiredEx localsEx true lp1 = .delete ∧
       ∀ r ∈ executePlan desiredEx localsEx true, r.key ≠ lp1.key) ∧
    (planOp desiredEx localsEx true lp5 = .delete ∧
       ∀ r ∈ executePlan desiredEx localsEx true, r.key ≠ lp5.key) :=
  ⟨(dirty_delete_policy desiredEx localsEx lp2 (by decide) (by decide)
      (by decide) (by decide)).1 (by decide),
   (dirty_delete_policy desiredEx localsEx lp4 (by decide) (by decide)
      (by decide) (by decide)).1 (by decide),
   (dirty_delete_policy desiredEx localsEx lp1 (by decide) (by decide)
      (by decide) (by decide)).2 (by decide),
   (dirty_delete_policy desiredEx localsEx lp5 (by decide) (by decide)
      (by decide) (by decide)).2 (by decide)⟩

/-! ## Theorems about the per-project update procedure -/

theorem origin_append_inj {a b : String}
    (h : "origin/" ++ a = "origin/" ++ b) : a = b := by
  have hd : ("origin/" ++ a).data = ("origin/" ++ b).data := by rw [h]
  simp only [String.data_append] at hd
  exact String.ext (List.append_cancel_left hd)

theorem lookupStr_map_origin (l : List (String × String)) (x : String) :
    lookupStr (l.map (fun bc => ("origin/" ++ bc.1, bc.2))) ("origin/" ++ x) =
      lookupStr l x := by
  induction l with
  | nil => rfl
  | cons bc rest ih =>
      obtain ⟨k, v⟩ := bc
      simp only [List.map_cons]
      rw [lookupStr, lookupStr]
      by_cases h : k = x
      · rw [if_pos (by rw [h]), if_pos h]
      · rw [if_neg (fun hc => h (origin_append_inj hc)), if_neg h, ih]

theorem updateProject_untracked (p : UProject) (remote : RemoteRepo)
    (conflicts : String → String → Bool) (repo : LocalRepo) :
    (updateProject p remote conflicts repo).1.untracked = repo.untracked := by
  simp only [updateProject, fetchRemote]
  cases hob : repo.onBranch with
  | none => simp [hob]
  | some b =>
      simp only [hob]
      split_ifs <;> rfl

theorem updateProject_jiriHead (p : UProject) (remote : RemoteRepo)
    (conflicts : String → String → Bool) (repo : LocalRepo) :
    (updateProject p remote conflicts repo).1.jiriHead = targetRef p := by
  simp only [updateProject, fetchRemote]
  cases hob : repo.onBranch with
  | none => simp [hob]
  | some b =>
      simp only [hob]
      split_ifs <;> rfl

theorem runUpdate_mem {ws : List WorkEntry}
    {conflicts : String → String → Bool} {e : WorkEntry} (hmem : e ∈ ws) :
    (e.proj, (updateProject e.proj e.remote conflicts e.repo).1,
       (updateProject e.proj e.remote conflicts e.repo).2)
      ∈ (runUpdate ws conflicts).entries := by
  have h := List.mem_map_of_mem (fun e : WorkEntry =>
    let rt := updateProject e.proj e.remote conflicts e.repo
    (e.proj, rt.1, rt.2)) hmem
  exact h

/-- Claim C5: a run of the engine succeeds, updates every workspace entry,
and leaves each project's uncommitted and untracked files present with
bit-identical contents — the reset/checkout operations never clean them. -/
theorem run_preserves_uncommitted (ws : List WorkEntry)
    (conflicts : String → String → Bool) (e : WorkEntry) (hmem : e ∈ ws) :
    (runUpdate ws conflicts).success = true ∧
    (e.proj, (updateProject e.proj e.remote conflicts e.repo).1,
       (updateProject e.proj e.remote conflicts e.repo).2)
      ∈ (runUpdate ws conflicts).entries ∧
    (updateProject e.proj e.remote conflicts e.repo).1.untracked =
      e.repo.untracked :=
  ⟨rfl, runUpdate_mem hmem, updateProject_untracked _ _ _ _⟩

/-- Witness for C5: the `TestUpdateUniverseWithUncommitted` scenario — the
uncommitted file of project 1 survives the run with identical bytes. -/
theorem run_preserves_uncommitted_witness :
    (runUpdate [pinnedEntryEx] conflictsEx).success = true ∧
    (pinnedEntryEx.proj,
       (updateProject pinnedEntryEx.proj pinnedEntryEx.remote conflictsEx
          pinnedEntryEx.repo).1,
       (updateProject pinnedEntryEx.proj pinnedEntryEx.remote conflictsEx
          pinnedEntryEx.repo).2)
      ∈ (runUpdate [pinnedEntryEx] conflictsEx).entries ∧
    (updateProject pinnedEntryEx.proj pinnedEntryEx.remote conflictsEx
       pinnedEntryEx.repo).1.untracked = pinnedEntryEx.repo.untracked :=
  run_preserves_uncommitted [pinnedEntryEx] conflictsEx pinnedEntryEx
    (List.mem_cons_self _ _)

theorem updateProject_detached_head (p : UProject) (remote : RemoteRepo)
    (conflicts : String → String → Bool) (repo : LocalRepo)
    (hdet : repo.onBranch = none) :
    (updateProject p remote conflicts repo).1.headCommit =
      resolveRef (fetchRemote repo remote) (targetRef p) := by
  simp only [updateProject, fetchRemote]
  simp [hdet]

/-- Claim C6: after one run, a detached project pinned to a literal revision
has its working tree at that revision even when the remote branch tip has
advanced past it, while a detached project without a pinned revision is
left at the tip of its declared remote branch. -/
theorem pinned_revision_targets (ws : List WorkEntry)
    (conflicts : String → String → Bool) (e : WorkEntry) (hmem : e ∈ ws)
    (hdet : e.repo.onBranch = none) :
    (runUpdate ws conflicts).success = true ∧
    (e.proj, (updateProject e.proj e.remote conflicts e.repo).1,
       (updateProject e.proj e.remote conflicts e.repo).2)
      ∈ (runUpdate ws conflicts).entries ∧
    (e.proj.revision ≠ "" →
       lookupStr (fetchRemote e.repo e.remote).remoteRefs e.proj.revision = none →
       (updateProject e.proj e.remote conflicts e.repo).1.headCommit =
         e.proj.revision) ∧
    (e.proj.revision = "" →
       ∀ tip, lookupStr e.remote.branchTips (remoteBranchOf e.proj) = some tip →
         (updateProject e.proj e.remote conflicts e.repo).1.headCommit = tip) := by
  refine ⟨rfl, runUpdate_mem hmem, ?_, ?_⟩
  · intro hrev hnone
    rw [updateProject_detached_head _ _ _ _ hdet]
    simp only [targetRef, if_neg hrev, resolveRef]
    rw [hnone]
  · intro hrev tip htip
    rw [updateProject_detached_head _ _ _ _ hdet]
    simp only [targetRef, if_pos hrev, resolveRef, fetchRemote]
    rw [lookupStr_map_origin, htip]

/-- Witness for C6: the `TestUpdateUniverseWithRevision` scenario —
project 1 pinned to `r1` stays at `r1` although its remote master moved to
`r2`; unpinned project 0 lands on its remote master tip `r3`. -/
theorem pinned_revision_targets_witness :
    (updateProject pinnedProjEx pinnedRemoteEx conflictsEx pinnedRepoEx).1.headCommit
      = "r1" ∧
    (updateProject trackedProjEx trackedRemoteEx conflictsEx trackedRepoEx).1.headCommit
      = "r3" :=
  ⟨(pinned_revision_targets [pinnedEntryEx, trackedEntryEx] conflictsEx
      pinnedEntryEx (List.mem_cons_self _ _) rfl).2.2.1 (by decide) (by decide),
   (pinned_revision_targets [pinnedEntryEx, trackedEntryEx] conflictsEx
      trackedEntryEx (List.mem_cons_of_mem _ (List.mem_cons_self _ _)) rfl).2.2.2
     rfl "r3" (by decide)⟩

/-- Claim C9: when the local checkout is on a branch whose tracking target
has advanced and the rebase conflicts, the engine aborts: the branch (and
the working tree) stays at the commit it was on, the project is tagged
with the non-fatal RebaseConflict, and the run over the whole workspace
still succeeds. -/
theorem rebase_conflict_nonfatal (ws : List WorkEntry)
    (conflicts : String → String → Bool) (e : WorkEntry)
    (b rb cur tip : String) (hmem : e ∈ ws)
    (hob : e.repo.onBranch = some b)
    (hbr : lookupStr e.repo.branches b = some cur)
    (htr : lookupStr e.repo.tracking b = some rb)
    (htip : lookupStr e.remote.branchTips rb = some tip)
    (hne : tip ≠ cur)
    (hconf : conflicts cur tip = true) :
    (updateProject e.proj e.remote conflicts e.repo).2 = some .rebaseConflict ∧
    (updateProject e.proj e.remote conflicts e.repo).1.branches =
      e.repo.branches ∧
    (updateProject e.proj e.remote conflicts e.repo).1.headCommit =
      e.repo.headCommit ∧
    (e.proj, (updateProject e.proj e.remote conflicts e.repo).1,
       (updateProject e.proj e.remote conflicts e.repo).2)
      ∈ (runUpdate ws conflicts).entries ∧
    (runUpdate ws conflicts).success = true := by
  have hcore : (updateProject e.proj e.remote conflicts e.repo).2 =
        some .rebaseConflict ∧
      (updateProject e.proj e.remote conflicts e.repo).1.branches =
        e.repo.branches ∧
      (updateProject e.proj e.remote conflicts e.repo).1.headCommit =
        e.repo.headCommit := by
    simp only [updateProject, fetchRemote, resolveRef]
    simp only [hob, hbr, htr, lookupStr_map_origin, htip, Option.getD_some]
    rw [if_neg hne, if_pos hconf]
    exact ⟨rfl, rfl, rfl⟩
  exact ⟨hcore.1, hcore.2.1, hcore.2.2, runUpdate_mem hmem, rfl⟩

/-- Witness for C9: the `TestUpdateWhenConflictMerge` scenario — the
cherry-picked branch non-master at `c2` conflicts when rebased onto its
advanced tracking target `c3`; the branch stays at `c2`, the project is
tagged, the run succeeds. -/
theorem rebase_conflict_nonfatal_witness :
    (updateProject p1Ex remoteEx conflictsEx repoEx).2 = some .rebaseConflict ∧
    (updateProject p1Ex remoteEx conflictsEx repoEx).1.branches =
      repoEx.branches ∧
    (updateProject p1Ex remoteEx conflictsEx repoEx).1.headCommit =
      repoEx.headCommit ∧
    (p1Ex, (updateProject p1Ex remoteEx conflictsEx repoEx).1,
       (updateProject p1Ex remoteEx conflictsEx repoEx).2)
      ∈ (runUpdate [conflictEntryEx] conflictsEx).entries ∧
    (runUpdate [conflictEntryEx] conflictsEx).success = true :=
  rebase_conflict_nonfatal [conflictEntryEx] conflictsEx conflictEntryEx
    "non-master" "non-master" "c2" "c3" (List.mem_cons_self _ _)
    rfl rfl rfl (by decide) (by decide) (by decide)

/-- Counterexample to C1 as stated: in the `TestUpdateWhenConflictMerge`
scenario the run succeeds, the rebase of project 1 was aborted on
conflict, and the JIRI_HEAD sentinel (the manifest target `origin/master`,
resolving to `c0`) does NOT resolve to the commit recorded in
JIRI_LAST_BASE (the cherry-picked commit `c2` the tree was left at). -/
theorem sentinel_mismatch_on_conflict :
    (runUpdate [conflictEntryEx] conflictsEx).success = true ∧
    (updateProject p1Ex remoteEx conflictsEx repoEx).2 = some .rebaseConflict ∧
    resolveRef (updateProject p1Ex remoteEx conflictsEx repoEx).1
        (updateProject p1Ex remoteEx conflictsEx repoEx).1.jiriHead ≠
      (updateProject p1Ex remoteEx conflictsEx repoEx).1.jiriLastBase := by
  decide

/-- Claim C1, amended: after a successful run JIRI_HEAD always records the
manifest target reference, and JIRI_LAST_BASE the commit the working tree
was actually left at; for every project updated on a detached HEAD — where
the tree is reset to the target — the JIRI_HEAD reference resolves to the
same commit as JIRI_LAST_BASE.  (For a project on a local branch whose
rebase was aborted on conflict the two may differ, as
`sentinel_mismatch_on_conflict` shows.) -/
theorem sentinel_consistency_detached (ws : List WorkEntry)
    (conflicts : String → String → Bool) (e : WorkEntry) (hmem : e ∈ ws)
    (hdet : e.repo.onBranch = none) :
    (runUpdate ws conflicts).success = true ∧
    (e.proj, (updateProject e.proj e.remote conflicts e.repo).1,
       (updateProject e.proj e.remote conflicts e.repo).2)
      ∈ (runUpdate ws conflicts).entries ∧
    (updateProject e.proj e.remote conflicts e.repo).1.jiriHead =
      targetRef e.proj ∧
    resolveRef (updateProject e.proj e.remote conflicts e.repo).1
        (updateProject e.proj e.remote conflicts e.repo).1.jiriHead =
      (updateProject e.proj e.remote conflicts e.repo).1.jiriLastBase := by
  refine ⟨rfl, runUpdate_mem hmem, updateProject_jiriHead _ _ _ _, ?_⟩
  simp only [updateProject, fetchRemote, resolveRef]
  simp [hdet]

/-- Witness for the amended C1: a detached project (project 0 of the
pinned-revision scenario) ends the run with JIRI_HEAD resolving exactly to
the JIRI_LAST_BASE commit. -/
theorem sentinel_consistency_detached_witness :
    (runUpdate [trackedEntryEx] conflictsEx).success = true ∧
    (trackedProjEx, (updateProject trackedProjEx trackedRemoteEx conflictsEx
         trackedRepoEx).1,
       (updateProject trackedProjEx trackedRemoteEx conflictsEx
         trackedRepoEx).2)
      ∈ (runUpdate [trackedEntryEx] conflictsEx).entries ∧
    (updateProject trackedProjEx trackedRemoteEx conflictsEx
       trackedRepoEx).1.jiriHead = targetRef trackedProjEx ∧
    resolveRef (updateProject trackedProjEx trackedRemoteEx conflictsEx
         trackedRepoEx).1
        (updateProject trackedProjEx trackedRemoteEx conflictsEx
          trackedRepoEx).1.jiriHead =
      (updateProject trackedProjEx trackedRemoteEx conflictsEx
        trackedRepoEx).1.jiriLastBase :=
  sentinel_consistency_detached [trackedEntryEx] conflictsEx trackedEntryEx
    (List.mem_cons_self _ _) rfl
